import Mathlib

/-!
# Label layout engine — verification of the layout core

Shallow embedding of `src/services/label-printer.ts` (`generatePdf`): the
header fitter, the separator, the vertical budget, the image sizing, the
(font size × column count) fit search and the column-major item placement.
Coordinates and sizes are modelled as rationals; font sizes are the integer
point values the code iterates over.  Font metrics (`widthOfTextAtSize`,
`heightAtSize`) are parameters of the embedding, as the engine only ever
queries them pointwise.
-/

namespace LabelVision

/-- Font metrics provider: text width at an (integer) font size, and line
height at a font size, mirroring `PDFFont.widthOfTextAtSize` and
`PDFFont.heightAtSize`. -/
structure FontMetrics where
  widthOf : String → ℕ → ℚ
  heightAt : ℕ → ℚ

/-- A decoded raster image: pixel dimensions as reported by
`embedPng`/`embedJpg` (a decodable image has positive dimensions). -/
structure RasterImage where
  pixelWidth : ℕ
  pixelHeight : ℕ
  pixelWidth_pos : 0 < pixelWidth
  pixelHeight_pos : 0 < pixelHeight

/-- Text alignment option (`textAlign`), defaulting to `left` at the caller. -/
inductive Align where
  | left
  | center
  | right
deriving DecidableEq

/-- A positioned drawing primitive emitted by the engine
(`page.drawText` / `page.drawLine` / `page.drawImage` calls). -/
inductive DrawPrimitive where
  | text (content : String) (x y : ℚ) (size : ℕ) (bold : Bool)
  | line (x0 y0 x1 y1 thickness : ℚ)
  | image (x y w h : ℚ)
deriving DecidableEq

/-- `margin = 5` points. -/
def margin : ℚ := 5

/-- `headerBottomMargin = 4`. -/
def headerBottomMargin : ℚ := 4

/-- `lineThickness = 0.5`. -/
def lineThickness : ℚ := 1/2

/-- `lineTopMargin = 2`. -/
def lineTopMargin : ℚ := 2

/-- `lineBottomMargin = 4`. -/
def lineBottomMargin : ℚ := 4

/-- `itemSpacing = 1.5`. -/
def itemSpacing : ℚ := 3/2

/-- `imagePadding = 4`. -/
def imagePadding : ℚ := 4

/-- `maxImageFraction = 0.3`. -/
def maxImageFraction : ℚ := 3/10

/-- `maxHeaderFontSize = 24`. -/
def maxHeaderFontSize : ℕ := 24

/-- `minHeaderFontSize = 8`. -/
def minHeaderFontSize : ℕ := 8

/-- `maxItemFontSize = 14`. -/
def maxItemFontSize : ℕ := 14

/-- `minItemFontSize = 6`. -/
def minItemFontSize : ℕ := 6

/-- `contentWidth = width - 2 * margin`. -/
def contentWidth (width : ℚ) : ℚ := width - 2 * margin

/-- The header font search loop:
`while (headerTextWidth > contentWidth && headerFontSize > minHeaderFontSize)
   headerFontSize -= 1`.
The fuel argument counts the decrements still allowed before the size
reaches the minimum (the loop maintains `size = minHeaderFontSize + fuel`). -/
def headerFitAux (fm : FontMetrics) (s : String) (cw : ℚ) : ℕ → ℕ → ℕ
  | 0, size => size
  | fuel + 1, size =>
      if cw < fm.widthOf s size then headerFitAux fm s cw fuel (size - 1) else size

/-- `headerFontSize`: start at 24 and decrement while the header text
overflows `contentWidth` and the size is above 8. -/
def headerFontSize (fm : FontMetrics) (s : String) (cw : ℚ) : ℕ :=
  headerFitAux fm s cw (maxHeaderFontSize - minHeaderFontSize) maxHeaderFontSize

/-- `headerTextWidth` at the chosen header font size. -/
def headerTextWidth (fm : FontMetrics) (s : String) (cw : ℚ) : ℚ :=
  fm.widthOf s (headerFontSize fm s cw)

/-- `headerTextHeight = pdfBoldFont.heightAtSize(headerFontSize)`. -/
def headerTextHeight (fm : FontMetrics) (s : String) (cw : ℚ) : ℚ :=
  fm.heightAt (headerFontSize fm s cw)

/-- Horizontal position of the header per `textAlign`. -/
def headerX (fm : FontMetrics) (al : Align) (width : ℚ) (s : String) : ℚ :=
  match al with
  | .left => margin
  | .center => (width - headerTextWidth fm s (contentWidth width)) / 2
  | .right => width - margin - headerTextWidth fm s (contentWidth width)

/-- `headerY = (height - margin) - headerTextHeight`. -/
def headerY (fm : FontMetrics) (width height : ℚ) (s : String) : ℚ :=
  height - margin - headerTextHeight fm s (contentWidth width)

/-- `lineY`: separator baseline, `headerY - headerBottomMargin - lineTopMargin`. -/
def lineYpos (fm : FontMetrics) (width height : ℚ) (s : String) : ℚ :=
  headerY fm width height s - headerBottomMargin - lineTopMargin

/-- `itemListStartY = lineY - lineBottomMargin`: top of the item list area. -/
def itemListStartY (fm : FontMetrics) (width height : ℚ) (s : String) : ℚ :=
  lineYpos fm width height s - lineBottomMargin

/-- `scale = Math.min(contentWidth / image.width,
maxAllowedImageHeight / image.height, 1)` where
`maxAllowedImageHeight = (height - margin * 2) * maxImageFraction`. -/
def imageScale (width height : ℚ) (img : RasterImage) : ℚ :=
  min (min (contentWidth width / (img.pixelWidth : ℚ))
        ((height - margin * 2) * maxImageFraction / (img.pixelHeight : ℚ))) 1

/-- `imageSectionHeight = imageDims.height + imagePadding * 2` when an image
was embedded, else `0`. -/
def imageSectionHeight (width height : ℚ) (img : Option RasterImage) : ℚ :=
  match img with
  | none => 0
  | some i => (i.pixelHeight : ℚ) * imageScale width height i + imagePadding * 2

/-- `availableHeightForItems = itemListStartY - margin - imageSectionHeight`. -/
def availableHeightForItems (fm : FontMetrics) (width height : ℚ) (s : String)
    (img : Option RasterImage) : ℚ :=
  itemListStartY fm width height s - margin - imageSectionHeight width height img

/-- `colWidth = (contentWidth - (numCols - 1) * margin) / numCols`. -/
def colWidthQ (width : ℚ) (cols : ℕ) : ℚ :=
  (contentWidth width - ((cols - 1 : ℕ) : ℚ) * margin) / (cols : ℚ)

/-- `itemsPerCol = Math.ceil(items.length / numCols)`. -/
def itemsPerColN (n cols : ℕ) : ℕ := (n + cols - 1) / cols

/-- One candidate of the fit search fits when
`requiredHeight <= availableHeightForItems && itemsFitWidth`. -/
def fitsB (fm : FontMetrics) (items : List String) (width avail : ℚ)
    (fs cols : ℕ) : Bool :=
  decide ((itemsPerColN items.length cols : ℚ) * (fm.heightAt fs + itemSpacing) ≤ avail)
    && items.all fun it => decide (fm.widthOf it fs ≤ colWidthQ width cols)

/-- Inner loop of the fit search: try `numCols` from the given bound down to 1,
returning the first (largest) column count that fits. -/
def findColsAux (fm : FontMetrics) (items : List String) (width avail : ℚ)
    (fs : ℕ) : ℕ → Option ℕ
  | 0 => none
  | c + 1 => if fitsB fm items width avail fs (c + 1) then some (c + 1)
             else findColsAux fm items width avail fs c

/-- `for (numCols = 3; numCols >= 1; numCols--)`. -/
def findCols (fm : FontMetrics) (items : List String) (width avail : ℚ)
    (fs : ℕ) : Option ℕ :=
  findColsAux fm items width avail fs 3

/-- Outer loop of the fit search: `for (fontSize = 14; fontSize >= 6; fontSize--)`,
with the labelled break `findOptimalFit` on the first hit; falls through to the
initial values `(6, 1)`.  `fuel` bounds the number of iterations. -/
def fitFromF (fm : FontMetrics) (items : List String) (width avail : ℚ) :
    ℕ → ℕ → ℕ × ℕ
  | 0, _ => (minItemFontSize, 1)
  | fuel + 1, fs =>
      if fs < minItemFontSize then (minItemFontSize, 1)
      else
        match findCols fm items width avail fs with
        | some c => (fs, c)
        | none => fitFromF fm items width avail fuel (fs - 1)

/-- The full fit search starting at font size 14. -/
def fitSearch (fm : FontMetrics) (items : List String) (width avail : ℚ) : ℕ × ℕ :=
  fitFromF fm items width avail 15 maxItemFontSize

/-- `(optimalFontSize, optimalColumns)`: initialized to `(6, 1)` and replaced
by the search result only when `items.length > 0 && availableHeightForItems > 0`. -/
def optimalFit (fm : FontMetrics) (items : List String) (width avail : ℚ) : ℕ × ℕ :=
  if 0 < items.length ∧ 0 < avail then fitSearch fm items width avail
  else (minItemFontSize, 1)

/-- Horizontal position of an item inside its column per `textAlign`. -/
def itemXpos (al : Align) (colStartX colWidth w : ℚ) : ℚ :=
  match al with
  | .left => colStartX
  | .center => colStartX + (colWidth - w) / 2
  | .right => colStartX + colWidth - w

/-- Inner row loop of the item renderer:
`for (row = 0; row < itemsPerCol && itemIndex < items.length; row++)`,
consuming `items[itemIndex++]`, breaking (after the index increment) when
`currentItemY < margin + imageSectionHeight`, otherwise drawing the item and
stepping `currentItemY -= totalLineHeight`.  Returns the primitives of this
column and the item index reached. -/
def drawRows (fm : FontMetrics) (al : Align) (fs : ℕ)
    (colStartX colWidth lineH floorY : ℚ) (items : List String) :
    ℕ → ℕ → ℚ → List DrawPrimitive × ℕ
  | 0, i, _ => ([], i)
  | r + 1, i, y =>
      if h : i < items.length then
        if y < floorY then ([], i + 1)
        else
          let it := items.get ⟨i, h⟩
          let res := drawRows fm al fs colStartX colWidth lineH floorY items r (i + 1) (y - lineH)
          (.text it (itemXpos al colStartX colWidth (fm.widthOf it fs)) y fs false :: res.1,
           res.2)
      else ([], i)

/-- Outer column loop of the item renderer: `for (col = 0; col < optimalColumns;
col++)` with `colStartX = margin + col * (colWidth + margin)`, breaking out when
all items have been consumed. -/
def drawColsAux (fm : FontMetrics) (al : Align) (fs : ℕ)
    (colWidth ipcLineH floorY itemH topY : ℚ) (ipc : ℕ) (items : List String) :
    ℕ → ℕ → ℕ → List DrawPrimitive
  | 0, _, _ => []
  | c + 1, col, i =>
      let colStartX : ℚ := margin + (col : ℚ) * (colWidth + margin)
      let res := drawRows fm al fs colStartX colWidth ipcLineH floorY items ipc i (topY - itemH)
      if items.length ≤ res.2 then res.1
      else res.1 ++ drawColsAux fm al fs colWidth ipcLineH floorY itemH topY ipc items c (col + 1) res.2

/-- The item drawing block: runs only under the same gate as the fit search
(`items.length > 0 && availableHeightForItems > 0`). -/
def itemPrims (fm : FontMetrics) (al : Align) (width topY avail floorY : ℚ)
    (items : List String) : List DrawPrimitive :=
  if 0 < items.length ∧ 0 < avail then
    let fit := optimalFit fm items width avail
    let itemH := fm.heightAt fit.1
    drawColsAux fm al fit.1 (colWidthQ width fit.2) (itemH + itemSpacing) floorY itemH topY
      (itemsPerColN items.length fit.2) items fit.2 0 0
  else []

/-- The image drawing block: emits the centered, bottom-anchored image when the
scaled dimensions are positive. -/
def imagePrims (width _height : ℚ) (img : Option RasterImage) (sc : ℚ) :
    List DrawPrimitive :=
  match img with
  | none => []
  | some i =>
      let w := (i.pixelWidth : ℚ) * sc
      let h := (i.pixelHeight : ℚ) * sc
      if 0 < w ∧ 0 < h then [.image ((width - w) / 2) (margin + imagePadding) w h]
      else []

/-- The scale used when drawing the image (zero when there is none). -/
def layoutScale (width height : ℚ) : Option RasterImage → ℚ
  | none => 0
  | some i => imageScale width height i

/-- The layout core of `generatePdf`: header text, separator line, item list
and optional image, in emission order. -/
def layout (base bold : FontMetrics) (al : Align) (width height : ℚ)
    (summary : String) (items : List String) (img : Option RasterImage) :
    List DrawPrimitive :=
  let avail := availableHeightForItems bold width height summary img
  [.text summary (headerX bold al width summary) (headerY bold width height summary)
     (headerFontSize bold summary (contentWidth width)) true,
   .line margin (lineYpos bold width height summary) (width - margin)
     (lineYpos bold width height summary) lineThickness]
  ++ itemPrims base al width (itemListStartY bold width height summary) avail
       (margin + imageSectionHeight width height img) items
  ++ imagePrims width height img (layoutScale width height img)

/-- A primitive's coordinates all lie inside `[0, width] × [0, height]`
(text position, line endpoints, image position). -/
def inBoundsB (width height : ℚ) : DrawPrimitive → Bool
  | .text _ x y _ _ => decide (0 ≤ x ∧ x ≤ width ∧ 0 ≤ y ∧ y ≤ height)
  | .line x0 y0 x1 y1 _ =>
      decide (0 ≤ x0 ∧ x0 ≤ width ∧ 0 ≤ y0 ∧ y0 ≤ height ∧
        0 ≤ x1 ∧ x1 ≤ width ∧ 0 ≤ y1 ∧ y1 ≤ height)
  | .image x y _ _ => decide (0 ≤ x ∧ x ≤ width ∧ 0 ≤ y ∧ y ≤ height)

/-- Is this primitive an item text run (non-bold text)? -/
def isItemText : DrawPrimitive → Bool
  | .text _ _ _ _ b => !b
  | _ => false

/-- The y coordinate of a primitive (text baseline, line start, image corner). -/
def primY : DrawPrimitive → ℚ
  | .text _ _ y _ _ => y
  | .line _ y0 _ _ _ => y0
  | .image _ y _ _ => y

/-- A simple concrete font-metrics model (0.6·size per character, line height
equal to the size), used to evaluate the engine at concrete inputs. -/
def stdFM : FontMetrics where
  widthOf s n := (3 * s.length * n : ℚ) / 5
  heightAt n := (n : ℚ)

/-- A font-metrics model whose text widths sit strictly between the content
width (90pt) and the canvas width (100pt) of a 100pt-wide canvas at every
size; widths grow strictly with the size, as the metrics contract demands. -/
def cexFM : FontMetrics where
  widthOf _ n := 95 + (n : ℚ) / 100
  heightAt n := (n : ℚ)

/-- Modelled from the claim's words (C8): the spec's image scale formula
`min(horizontalBudget / pixelWidth, (canvasHeight * maxImageHeightFraction) /
pixelHeight, 1.0)`, using the full canvas height. -/
def imageScaleClaim (width height : ℚ) (img : RasterImage) : ℚ :=
  min (min (contentWidth width / (img.pixelWidth : ℚ))
        (height * maxImageFraction / (img.pixelHeight : ℚ))) 1

/-- A concrete 10×100-pixel image. -/
def imgCex : RasterImage := ⟨10, 100, by norm_num, by norm_num⟩

/-- Is this primitive a bold text run (the header is the only bold text)? -/
def isBoldText : DrawPrimitive → Bool
  | .text _ _ _ _ b => b
  | _ => false

/-- Is this primitive a line (the separator is the only line)? -/
def isLine : DrawPrimitive → Bool
  | .line _ _ _ _ _ => true
  | _ => false

/-! ## Header fitter characterization -/

/-- Along the header loop, the running size equals `minHeaderFontSize + fuel`;
the loop returns the largest size at or below its starting size whose text
width fits the budget, or the floor size if none fits. -/
lemma headerFitAux_char (fm : FontMetrics) (s : String) (cw : ℚ) :
    ∀ fuel size, size = minHeaderFontSize + fuel →
      minHeaderFontSize ≤ headerFitAux fm s cw fuel size ∧
      headerFitAux fm s cw fuel size ≤ size ∧
      (∀ t, headerFitAux fm s cw fuel size < t → t ≤ size → cw < fm.widthOf s t) ∧
      (fm.widthOf s (headerFitAux fm s cw fuel size) ≤ cw ∨
        headerFitAux fm s cw fuel size = minHeaderFontSize) := by
  intro fuel
  induction fuel with
  | zero =>
      intro size hsz
      simp only [headerFitAux]
      refine ⟨by omega, le_refl _, fun t ht ht' => absurd (lt_of_lt_of_le ht ht') (lt_irrefl _), Or.inr ?_⟩
      omega
  | succ n ih =>
      intro size hsz
      simp only [headerFitAux]
      by_cases hc : cw < fm.widthOf s size
      · simp only [if_pos hc]
        obtain ⟨h1, h2, h3, h4⟩ := ih (size - 1) (by omega)
        refine ⟨h1, le_trans h2 (by omega), fun t ht ht' => ?_, h4⟩
        rcases Nat.lt_or_ge t size with h | h
        · exact h3 t ht (by omega)
        · have : t = size := by omega
          rw [this]; exact hc
      · simp only [if_neg hc]
        exact ⟨by omega, le_refl _,
          fun t ht ht' => absurd (lt_of_lt_of_le ht ht') (lt_irrefl _),
          Or.inl (le_of_not_lt hc)⟩

/-- C4 (amended): the header font size is computed by starting at 24pt and
decrementing while the header's width exceeds the CONTENT width (canvas width
minus the two 5pt margins) and the size is above 8pt; equivalently it is the
largest size in [8, 24] whose width fits the content width, or 8 if none fits
(overflow at the floor size being accepted silently). -/
theorem headerFontSize_largest_fitting (fm : FontMetrics) (s : String) (cw : ℚ) :
    minHeaderFontSize ≤ headerFontSize fm s cw ∧
    headerFontSize fm s cw ≤ maxHeaderFontSize ∧
    (∀ t, headerFontSize fm s cw < t → t ≤ maxHeaderFontSize → cw < fm.widthOf s t) ∧
    (fm.widthOf s (headerFontSize fm s cw) ≤ cw ∨
      headerFontSize fm s cw = minHeaderFontSize) :=
  headerFitAux_char fm s cw (maxHeaderFontSize - minHeaderFontSize) maxHeaderFontSize rfl

/-- C4 witness: at the concrete metrics `stdFM`, a two-character header on a
100pt canvas keeps the maximal 24pt size, as the characterization predicts. -/
theorem headerFontSize_largest_fitting_witness :
    minHeaderFontSize ≤ headerFontSize stdFM "Hi" (contentWidth 100) ∧
    headerFontSize stdFM "Hi" (contentWidth 100) = 24 :=
  ⟨(headerFontSize_largest_fitting stdFM "Hi" (contentWidth 100)).1,
   by with_unfolding_all rfl⟩

/-- C4 counterexample: with metrics whose header width lies strictly between
the content width (90pt) and the canvas width (100pt) at every size, the code
descends to the floor size 8 even though size 24 fits the CANVAS width — so
the chosen size is not the largest size in [8, 24] fitting the canvas width. -/
theorem headerFontSize_not_canvas_width :
    headerFontSize cexFM "h" (contentWidth 100) = 8 ∧
    cexFM.widthOf "h" 24 ≤ 100 ∧ (8 : ℕ) < 24 :=
  ⟨by with_unfolding_all rfl, of_decide_eq_true (by with_unfolding_all rfl), by norm_num⟩

/-! ## Empty item list (C6) -/

/-- C6 (amended): with an empty item list the fit result is the MINIMUM item
font size (6pt) with 1 column (the search is skipped and the initial values
survive), and with no image the emitted draw list is exactly the header text
primitive followed by the separator line primitive. -/
theorem layout_empty_items (base bold : FontMetrics) (al : Align) (width height : ℚ)
    (summary : String) :
    optimalFit base [] width (availableHeightForItems bold width height summary none)
      = (minItemFontSize, 1) ∧
    layout base bold al width height summary [] none =
      [.text summary (headerX bold al width summary) (headerY bold width height summary)
         (headerFontSize bold summary (contentWidth width)) true,
       .line margin (lineYpos bold width height summary) (width - margin)
         (lineYpos bold width height summary) lineThickness] := by
  constructor
  · simp [optimalFit]
  · simp [layout, itemPrims, imagePrims]

/-- C6 witness: concrete instance of the empty-item layout. -/
theorem layout_empty_items_witness :
    optimalFit stdFM [] 100 (availableHeightForItems stdFM 100 100 "H" none)
      = (minItemFontSize, 1) :=
  (layout_empty_items stdFM stdFM .left 100 100 "H").1

/-- C6 counterexample: with empty items the fit result is `(6, 1)`, not the
maximum font size `(14, 1)` the claim asserts. -/
theorem optimalFit_empty_items_not_max :
    optimalFit stdFM [] 100 (availableHeightForItems stdFM 100 100 "H" none) ≠ (14, 1) := by
  intro h
  have h6 : optimalFit stdFM [] 100 (availableHeightForItems stdFM 100 100 "H" none)
      = (minItemFontSize, 1) := by simp [optimalFit]
  rw [h6] at h
  simp [minItemFontSize] at h

/-! ## Invalid canvas (C7) -/

/-- C7: the code performs no canvas validation: on a −1in × −1in canvas
(−72pt × −72pt) the layout computation runs to completion and returns the
header and separator primitives instead of failing fast. -/
theorem layout_no_canvas_validation :
    layout stdFM stdFM .left (-72) (-72) "X" ["item"] none =
      [.text "X" 5 (-85) 8 true, .line 5 (-91) (-77) (-91) (1/2)] := by
  with_unfolding_all rfl

/-! ## Image sizing (C8) -/

/-- C8 (amended): the image scale is
`min(contentWidth / pixelWidth, ((height - 2·margin) · 0.3) / pixelHeight, 1)` —
the height budget uses the canvas height MINUS the two 5pt margins, not the
bare canvas height — the scale never exceeds 1, the drawn size is
`(pixelWidth·scale, pixelHeight·scale)`, and the image is never drawn larger
than its pixel dimensions. -/
theorem imageScale_spec (width height : ℚ) (i : RasterImage) :
    imageScale width height i =
      min (min (contentWidth width / (i.pixelWidth : ℚ))
            ((height - 2 * margin) * maxImageFraction / (i.pixelHeight : ℚ))) 1 ∧
    imageScale width height i ≤ 1 ∧
    (i.pixelWidth : ℚ) * imageScale width height i ≤ (i.pixelWidth : ℚ) ∧
    (i.pixelHeight : ℚ) * imageScale width height i ≤ (i.pixelHeight : ℚ) ∧
    ∀ p ∈ imagePrims width height (some i) (imageScale width height i),
      p = .image ((width - (i.pixelWidth : ℚ) * imageScale width height i) / 2)
            (margin + imagePadding)
            ((i.pixelWidth : ℚ) * imageScale width height i)
            ((i.pixelHeight : ℚ) * imageScale width height i) := by
  have hle : imageScale width height i ≤ 1 := min_le_right _ _
  refine ⟨by rw [imageScale]; ring_nf, hle, ?_, ?_, ?_⟩
  · calc (i.pixelWidth : ℚ) * imageScale width height i
        ≤ (i.pixelWidth : ℚ) * 1 := by
          exact mul_le_mul_of_nonneg_left hle (by positivity)
      _ = (i.pixelWidth : ℚ) := mul_one _
  · calc (i.pixelHeight : ℚ) * imageScale width height i
        ≤ (i.pixelHeight : ℚ) * 1 := by
          exact mul_le_mul_of_nonneg_left hle (by positivity)
      _ = (i.pixelHeight : ℚ) := mul_one _
  · intro p hp
    simp only [imagePrims] at hp
    split_ifs at hp with h
    · simpa using hp
    · simp at hp

/-- C8 witness: a concrete 10×100 image on a 1000×100 canvas is drawn at
scale 27/100 without upscaling. -/
theorem imageScale_spec_witness :
    imageScale 1000 100 imgCex ≤ 1 ∧ imageScale 1000 100 imgCex = 27/100 :=
  ⟨(imageScale_spec 1000 100 imgCex).2.1, of_decide_eq_true (by with_unfolding_all rfl)⟩

/-- C8 counterexample: on a 1000×100 canvas with a 10×100-pixel image, the
code's scale is `27/100` (height budget `(100 − 10)·0.3 = 27`) while the
claim's formula gives `3/10` (height budget `100·0.3 = 30`); the drawn image
height is 27, not 30. -/
theorem imageScale_differs_from_claim :
    imageScale 1000 100 imgCex = 27/100 ∧
    imageScaleClaim 1000 100 imgCex = 3/10 ∧
    (27/100 : ℚ) ≠ 3/10 ∧
    imagePrims 1000 100 (some imgCex) (imageScale 1000 100 imgCex) =
      [.image (9973/20) 9 (27/10) 27] :=
  ⟨of_decide_eq_true (by with_unfolding_all rfl),
   of_decide_eq_true (by with_unfolding_all rfl),
   by norm_num,
   by with_unfolding_all rfl⟩

/-! ## Empty header (C9) -/

/-- C9 (amended): an empty header is zero-width and keeps the maximal 24pt
header size, but it still contributes the full line height at 24pt
(`heightAtSize(24)`, independent of the string) to the consumed vertical
space — the header zone height is NOT returned to the zones below. -/
theorem layout_empty_header (fm : FontMetrics) (width height : ℚ)
    (img : Option RasterImage) (h0 : fm.widthOf "" maxHeaderFontSize = 0)
    (hcw : 0 ≤ contentWidth width) :
    headerFontSize fm "" (contentWidth width) = maxHeaderFontSize ∧
    headerTextWidth fm "" (contentWidth width) = 0 ∧
    headerTextHeight fm "" (contentWidth width) = fm.heightAt maxHeaderFontSize ∧
    availableHeightForItems fm width height "" img =
      height - margin - fm.heightAt maxHeaderFontSize - headerBottomMargin
        - lineTopMargin - lineBottomMargin - margin
        - imageSectionHeight width height img := by
  have hfs : headerFontSize fm "" (contentWidth width) = maxHeaderFontSize := by
    show headerFitAux fm "" (contentWidth width) (maxHeaderFontSize - minHeaderFontSize)
        maxHeaderFontSize = maxHeaderFontSize
    have : maxHeaderFontSize - minHeaderFontSize = 16 := rfl
    rw [this]
    simp only [headerFitAux, h0]
    rw [if_neg (not_lt.2 hcw)]
  refine ⟨hfs, ?_, ?_, ?_⟩
  · rw [headerTextWidth, hfs, h0]
  · rw [headerTextHeight, hfs]
  · rw [availableHeightForItems, itemListStartY, lineYpos, headerY, headerTextHeight, hfs]

/-- C9 witness: concrete empty-header layout on a 100×100 canvas. -/
theorem layout_empty_header_witness :
    headerFontSize stdFM "" (contentWidth 100) = maxHeaderFontSize :=
  (layout_empty_header stdFM 100 100 none (by with_unfolding_all rfl)
    (of_decide_eq_true (by with_unfolding_all rfl))).1

/-- C9 counterexample: the empty header's height contribution is the full line
height at 24pt (here 24), not zero as the claim asserts. -/
theorem headerTextHeight_empty_not_zero :
    headerTextHeight stdFM "" (contentWidth 100) = 24 ∧ (24 : ℚ) ≠ 0 :=
  ⟨by with_unfolding_all rfl, by norm_num⟩

/-! ## Fit search characterization -/

/-- The inner column loop returns `none` exactly when no column count in
`[1, m]` fits. -/
lemma findColsAux_none_iff (fm : FontMetrics) (items : List String) (width avail : ℚ)
    (fs : ℕ) : ∀ m, findColsAux fm items width avail fs m = none ↔
      ∀ c, 1 ≤ c → c ≤ m → fitsB fm items width avail fs c = false := by
  intro m
  induction m with
  | zero => exact ⟨fun _ c h1 h2 => by omega, fun _ => rfl⟩
  | succ n ih =>
      simp only [findColsAux]
      by_cases hc : fitsB fm items width avail fs (n + 1) = true
      · simp only [if_pos hc]
        constructor
        · intro h; exact absurd h (by simp)
        · intro h; exact absurd (h (n + 1) (by omega) (le_refl _)) (by simp [hc])
      · simp only [if_neg hc]
        rw [ih]
        constructor
        · intro h c h1 h2
          rcases Nat.lt_or_ge c (n + 1) with h' | h'
          · exact h c h1 (by omega)
          · have : c = n + 1 := by omega
            rw [this]; exact Bool.eq_false_iff.2 hc
        · intro h c h1 h2; exact h c h1 (by omega)

/-- When the inner column loop returns a hit, it is the largest fitting column
count in `[1, m]`. -/
lemma findColsAux_some (fm : FontMetrics) (items : List String) (width avail : ℚ)
    (fs : ℕ) : ∀ m c, findColsAux fm items width avail fs m = some c →
      1 ≤ c ∧ c ≤ m ∧ fitsB fm items width avail fs c = true ∧
      ∀ c', c < c' → c' ≤ m → fitsB fm items width avail fs c' = false := by
  intro m
  induction m with
  | zero => intro c h; exact absurd h (by simp [findColsAux])
  | succ n ih =>
      intro c h
      simp only [findColsAux] at h
      by_cases hc : fitsB fm items width avail fs (n + 1) = true
      · rw [if_pos hc] at h
        obtain rfl : n + 1 = c := Option.some.inj h
        exact ⟨by omega, le_refl _, hc, fun c' h1 h2 => by omega⟩
      · rw [if_neg hc] at h
        obtain ⟨h1, h2, h3, h4⟩ := ih c h
        refine ⟨h1, by omega, h3, fun c' hc1 hc2 => ?_⟩
        rcases Nat.lt_or_ge c' (n + 1) with h' | h'
        · exact h4 c' hc1 (by omega)
        · have : c' = n + 1 := by omega
          rw [this]; exact Bool.eq_false_iff.2 hc

/-- Unfolding equation: exhausted fuel yields the fallback. -/
lemma fitFromF_zero (fm : FontMetrics) (items : List String) (width avail : ℚ) (fs : ℕ) :
    fitFromF fm items width avail 0 fs = (minItemFontSize, 1) := rfl

/-- Unfolding equation: below the floor font size the fallback is returned. -/
lemma fitFromF_succ_lt (fm : FontMetrics) (items : List String) (width avail : ℚ)
    (n fs : ℕ) (h : fs < minItemFontSize) :
    fitFromF fm items width avail (n + 1) fs = (minItemFontSize, 1) := by
  rw [fitFromF, if_pos h]

/-- Unfolding equation: a hit of the inner loop ends the search. -/
lemma fitFromF_succ_some (fm : FontMetrics) (items : List String) (width avail : ℚ)
    (n fs c : ℕ) (h : ¬ fs < minItemFontSize)
    (hc : findCols fm items width avail fs = some c) :
    fitFromF fm items width avail (n + 1) fs = (fs, c) := by
  rw [fitFromF, if_neg h, hc]

/-- Unfolding equation: a miss of the inner loop decrements the font size. -/
lemma fitFromF_succ_none (fm : FontMetrics) (items : List String) (width avail : ℚ)
    (n fs : ℕ) (h : ¬ fs < minItemFontSize)
    (hc : findCols fm items width avail fs = none) :
    fitFromF fm items width avail (n + 1) fs =
      fitFromF fm items width avail n (fs - 1) := by
  rw [fitFromF, if_neg h, hc]

/-- Characterization of the outer font-size loop: the result's font size is at
least the floor, its column count is in `[1, 3]`, every larger font size up to
the starting size has no fitting column count, and the result is either a
genuine hit (with its column count the inner loop's answer) or the `(6, 1)`
fallback with nothing fitting at all. -/
lemma fitFromF_char (fm : FontMetrics) (items : List String) (width avail : ℚ) :
    ∀ fuel fs, fs ≤ fuel + 5 →
      minItemFontSize ≤ (fitFromF fm items width avail fuel fs).1 ∧
      1 ≤ (fitFromF fm items width avail fuel fs).2 ∧
      (fitFromF fm items width avail fuel fs).2 ≤ 3 ∧
      (∀ f, minItemFontSize ≤ f → f ≤ fs → (fitFromF fm items width avail fuel fs).1 < f →
        findCols fm items width avail f = none) ∧
      ((findCols fm items width avail (fitFromF fm items width avail fuel fs).1 =
          some (fitFromF fm items width avail fuel fs).2 ∧
        (fitFromF fm items width avail fuel fs).1 ≤ fs) ∨
       (fitFromF fm items width avail fuel fs = (minItemFontSize, 1) ∧
        ∀ f, minItemFontSize ≤ f → f ≤ fs → findCols fm items width avail f = none)) := by
  have hmin : minItemFontSize = 6 := rfl
  intro fuel
  induction fuel with
  | zero =>
      intro fs hfs
      rw [fitFromF_zero]
      refine ⟨le_refl _, le_refl _, by omega, fun f hf1 hf2 hf3 => ?_, Or.inr ⟨rfl, ?_⟩⟩
      · rw [hmin] at hf3; omega
      · intro f hf1 hf2; rw [hmin] at hf1; omega
  | succ n ih =>
      intro fs hfs
      by_cases hlt : fs < minItemFontSize
      · rw [fitFromF_succ_lt fm items width avail n fs hlt]
        rw [hmin] at hlt
        refine ⟨le_refl _, le_refl _, by omega, fun f hf1 hf2 hf3 => ?_, Or.inr ⟨rfl, ?_⟩⟩
        · rw [hmin] at hf1; omega
        · intro f hf1 hf2; rw [hmin] at hf1; omega
      · rcases hcols : findCols fm items width avail fs with _ | c
        · rw [fitFromF_succ_none fm items width avail n fs hlt hcols]
          rw [hmin] at hlt
          obtain ⟨i1, i2, i3, i4, i5⟩ := ih (fs - 1) (by omega)
          refine ⟨i1, i2, i3, fun f hf1 hf2 hf3 => ?_, ?_⟩
          · rcases Nat.lt_or_ge f fs with h' | h'
            · exact i4 f hf1 (by omega) hf3
            · have hf : f = fs := by omega
              rw [hf]; exact hcols
          · rcases i5 with ⟨hsome, hle⟩ | ⟨heq', hall⟩
            · exact Or.inl ⟨hsome, by omega⟩
            · refine Or.inr ⟨heq', fun f hf1 hf2 => ?_⟩
              rcases Nat.lt_or_ge f fs with h' | h'
              · exact hall f hf1 (by omega)
              · have hf : f = fs := by omega
                rw [hf]; exact hcols
        · rw [fitFromF_succ_some fm items width avail n fs c hlt hcols]
          obtain ⟨hc1, hc2, _, _⟩ := findColsAux_some fm items width avail fs 3 c hcols
          rw [hmin] at hlt
          refine ⟨by rw [hmin]; omega, hc1, hc2, fun f hf1 hf2 hf3 => by omega,
            Or.inl ⟨hcols, le_refl _⟩⟩

/-- The outer loop's `findCols` call misses exactly when no column count in
`[1, 3]` fits. -/
lemma findCols_none_iff (fm : FontMetrics) (items : List String) (width avail : ℚ)
    (fs : ℕ) : findCols fm items width avail fs = none ↔
      ∀ c, 1 ≤ c → c ≤ 3 → fitsB fm items width avail fs c = false :=
  findColsAux_none_iff fm items width avail fs 3

/-- The fit result's font size is always at least the floor, and its column
count lies in `[1, 3]`. -/
lemma optimalFit_bounds (fm : FontMetrics) (items : List String) (width avail : ℚ) :
    minItemFontSize ≤ (optimalFit fm items width avail).1 ∧
    1 ≤ (optimalFit fm items width avail).2 ∧
    (optimalFit fm items width avail).2 ≤ 3 := by
  rw [optimalFit]
  split_ifs with h
  · obtain ⟨h1, h2, h3, _, _⟩ :=
      fitFromF_char fm items width avail 15 maxItemFontSize (by norm_num [maxItemFontSize])
    exact ⟨h1, h2, h3⟩
  · simp [minItemFontSize]

/-- C1: with a non-empty item list, a positive vertical budget and at least one
feasible (font size, column count) pair, the fit search returns a pair `(fs,
cols)` with `fs` the largest font size in `[6, 14]` at which some column count
in `[1, 3]` fits both constraints, and `cols` the largest fitting column count
at that font size. -/
theorem optimalFit_is_optimal (fm : FontMetrics) (items : List String) (width avail : ℚ)
    (hne : items ≠ []) (hav : 0 < avail) (f0 c0 : ℕ)
    (hf0l : minItemFontSize ≤ f0) (hf0u : f0 ≤ maxItemFontSize)
    (hc0l : 1 ≤ c0) (hc0u : c0 ≤ 3)
    (hfit : fitsB fm items width avail f0 c0 = true) :
    minItemFontSize ≤ (optimalFit fm items width avail).1 ∧
    (optimalFit fm items width avail).1 ≤ maxItemFontSize ∧
    1 ≤ (optimalFit fm items width avail).2 ∧
    (optimalFit fm items width avail).2 ≤ 3 ∧
    fitsB fm items width avail (optimalFit fm items width avail).1
      (optimalFit fm items width avail).2 = true ∧
    (∀ f c, minItemFontSize ≤ f → f ≤ maxItemFontSize → 1 ≤ c → c ≤ 3 →
      fitsB fm items width avail f c = true → f ≤ (optimalFit fm items width avail).1) ∧
    (∀ c, 1 ≤ c → c ≤ 3 →
      fitsB fm items width avail (optimalFit fm items width avail).1 c = true →
      c ≤ (optimalFit fm items width avail).2) := by
  have hgate : 0 < items.length ∧ 0 < avail := ⟨List.length_pos.2 hne, hav⟩
  have hopt : optimalFit fm items width avail =
      fitFromF fm items width avail 15 maxItemFontSize := by
    rw [optimalFit, if_pos hgate]; rfl
  obtain ⟨h1, h2, h3, h4, h5⟩ :=
    fitFromF_char fm items width avail 15 maxItemFontSize (by norm_num [maxItemFontSize])
  rw [hopt]
  rcases h5 with ⟨hsome, hle⟩ | ⟨_, hall⟩
  · obtain ⟨_, _, hfits, hmax⟩ :=
      findColsAux_some fm items width avail _ 3 _ hsome
    refine ⟨h1, hle, h2, h3, hfits, fun f c hfl hfu hcl hcu hfc => ?_, fun c hcl hcu hfc => ?_⟩
    · by_contra hgt
      push_neg at hgt
      have hnone := h4 f hfl hfu hgt
      rw [findCols_none_iff] at hnone
      exact absurd (hnone c hcl hcu) (by simp [hfc])
    · by_contra hgt
      push_neg at hgt
      exact absurd (hmax c hgt hcu) (by simp [hfc])
  · have hnone := hall f0 hf0l hf0u
    rw [findCols_none_iff] at hnone
    exact absurd (hnone c0 hc0l hc0u) (by simp [hfit])

/-- C1 witness: two one-character items on a 100pt-wide canvas with 50pt of
budget; `(14, 3)` fits, and the chosen pair indeed satisfies the fit
predicate. -/
theorem optimalFit_is_optimal_witness :
    fitsB stdFM ["a", "b"] 100 50 (optimalFit stdFM ["a", "b"] 100 50).1
      (optimalFit stdFM ["a", "b"] 100 50).2 = true :=
  (optimalFit_is_optimal stdFM ["a", "b"] 100 50 (by simp)
    (of_decide_eq_true (by with_unfolding_all rfl)) 14 3
    (by norm_num [minItemFontSize]) (by norm_num [maxItemFontSize])
    (by norm_num) (by norm_num)
    (by with_unfolding_all rfl)).2.2.2.2.1

/-! ## Item renderer structure -/

/-- Every primitive emitted by the row loop is a non-bold text run of one of
the items, positioned by the column's alignment rule, with its baseline at or
above the loop's starting y and never below the floor (the safety check). -/
lemma drawRows_mem (fm : FontMetrics) (al : Align) (fs : ℕ)
    (cX cW lH fY : ℚ) (items : List String) :
    ∀ r i y p, p ∈ (drawRows fm al fs cX cW lH fY items r i y).1 →
      ∃ it yp, it ∈ items ∧
        p = .text it (itemXpos al cX cW (fm.widthOf it fs)) yp fs false ∧
        fY ≤ yp ∧ (0 ≤ lH → yp ≤ y) := by
  intro r
  induction r with
  | zero => intro i y p hp; simp [drawRows] at hp
  | succ n ih =>
      intro i y p hp
      simp only [drawRows] at hp
      split_ifs at hp with hi hy
      · simp at hp
      · rcases List.mem_cons.1 hp with hp | hp
        · exact ⟨items.get ⟨i, hi⟩, y, List.get_mem items i hi, hp,
            le_of_not_lt hy, fun _ => le_refl _⟩
        · obtain ⟨it, yp, hmem, hpe, hfy, hup⟩ := ih (i + 1) (y - lH) p hp
          exact ⟨it, yp, hmem, hpe, hfy, fun hl => le_trans (hup hl) (by linarith)⟩
      · simp at hp

/-- Every primitive emitted by the column loop comes from some column index in
range, inheriting the row loop's floor and ceiling bounds. -/
lemma drawColsAux_mem (fm : FontMetrics) (al : Align) (fs : ℕ)
    (cW lH fY iH tY : ℚ) (ipc : ℕ) (items : List String) :
    ∀ c col i p, p ∈ drawColsAux fm al fs cW lH fY iH tY ipc items c col i →
      ∃ cIdx it yp, col ≤ cIdx ∧ cIdx < col + c ∧ it ∈ items ∧
        p = .text it (itemXpos al (margin + (cIdx : ℚ) * (cW + margin)) cW
              (fm.widthOf it fs)) yp fs false ∧
        fY ≤ yp ∧ (0 ≤ lH → yp ≤ tY - iH) := by
  intro c
  induction c with
  | zero => intro col i p hp; simp [drawColsAux] at hp
  | succ n ih =>
      intro col i p hp
      simp only [drawColsAux] at hp
      split_ifs at hp with hdone
      · obtain ⟨it, yp, hmem, hpe, hfy, hup⟩ :=
          drawRows_mem fm al fs (margin + (col : ℚ) * (cW + margin)) cW lH fY items
            ipc i (tY - iH) p hp
        exact ⟨col, it, yp, le_refl _, by omega, hmem, hpe, hfy, hup⟩
      · rcases List.mem_append.1 hp with hp | hp
        · obtain ⟨it, yp, hmem, hpe, hfy, hup⟩ :=
            drawRows_mem fm al fs (margin + (col : ℚ) * (cW + margin)) cW lH fY items
              ipc i (tY - iH) p hp
          exact ⟨col, it, yp, le_refl _, by omega, hmem, hpe, hfy, hup⟩
        · obtain ⟨cIdx, it, yp, hc1, hc2, hmem, hpe, hfy, hup⟩ := ih (col + 1) _ p hp
          exact ⟨cIdx, it, yp, by omega, by omega, hmem, hpe, hfy, hup⟩

/-- Every primitive of the item block is a non-bold text run of one of the
items at the chosen fit's font size, in a column index below the chosen column
count, at or above the floor `margin + imageSectionHeight`. -/
lemma itemPrims_mem (fm : FontMetrics) (al : Align) (width topY avail fY : ℚ)
    (items : List String) (p : DrawPrimitive)
    (hp : p ∈ itemPrims fm al width topY avail fY items) :
    ∃ cIdx it yp, cIdx < (optimalFit fm items width avail).2 ∧ it ∈ items ∧
      p = .text it (itemXpos al
            (margin + (cIdx : ℚ) * (colWidthQ width (optimalFit fm items width avail).2 + margin))
            (colWidthQ width (optimalFit fm items width avail).2)
            (fm.widthOf it (optimalFit fm items width avail).1)) yp
          (optimalFit fm items width avail).1 false ∧
      fY ≤ yp ∧
      (0 ≤ fm.heightAt (optimalFit fm items width avail).1 →
        yp ≤ topY - fm.heightAt (optimalFit fm items width avail).1) := by
  rw [itemPrims] at hp
  split_ifs at hp with hgate
  · obtain ⟨cIdx, it, yp, _, hc2, hmem, hpe, hfy, hup⟩ :=
      drawColsAux_mem fm al (optimalFit fm items width avail).1
        (colWidthQ width (optimalFit fm items width avail).2)
        (fm.heightAt (optimalFit fm items width avail).1 + itemSpacing) fY
        (fm.heightAt (optimalFit fm items width avail).1) topY
        (itemsPerColN items.length (optimalFit fm items width avail).2) items
        (optimalFit fm items width avail).2 0 0 p hp
    refine ⟨cIdx, it, yp, by omega, hmem, hpe, hfy, fun hh => hup ?_⟩
    have : itemSpacing = 3/2 := rfl
    rw [this]; linarith
  · simp at hp

/-- Every primitive of the image block is an image placement. -/
lemma imagePrims_mem (width height : ℚ) (img : Option RasterImage) (sc : ℚ)
    (p : DrawPrimitive) (hp : p ∈ imagePrims width height img sc) :
    ∃ x y w h, p = .image x y w h := by
  cases img with
  | none => simp [imagePrims] at hp
  | some i =>
      simp only [imagePrims] at hp
      split_ifs at hp with h
      · simp only [List.mem_singleton] at hp
        exact ⟨_, _, _, _, hp⟩
      · simp at hp

/-- The layout output is the header text, then the separator line, then the
item block, then the image block. -/
lemma layout_eq (base bold : FontMetrics) (al : Align) (width height : ℚ)
    (summary : String) (items : List String) (img : Option RasterImage) :
    layout base bold al width height summary items img =
      .text summary (headerX bold al width summary) (headerY bold width height summary)
          (headerFontSize bold summary (contentWidth width)) true ::
      .line margin (lineYpos bold width height summary) (width - margin)
          (lineYpos bold width height summary) lineThickness ::
      (itemPrims base al width (itemListStartY bold width height summary)
          (availableHeightForItems bold width height summary img)
          (margin + imageSectionHeight width height img) items ++
        imagePrims width height img (layoutScale width height img)) := rfl

/-! ## Degenerate fit (C3) -/

/-- C3: when the vertical budget is non-positive, or no (font size, column
count) combination in the search space satisfies both constraints, the fit
result is the floor `(6, 1)`; moreover every item text primitive that is
emitted sits at or above the bottom boundary `margin + imageSectionHeight`
(items below it are silently dropped), and the layout function still returns a
draw list — no error. -/
theorem layout_degenerate_fit (base bold : FontMetrics) (al : Align)
    (width height : ℚ) (summary : String) (items : List String)
    (img : Option RasterImage)
    (hdeg : availableHeightForItems bold width height summary img ≤ 0 ∨
      ∀ f c, minItemFontSize ≤ f → f ≤ maxItemFontSize → 1 ≤ c → c ≤ 3 →
        fitsB base items width (availableHeightForItems bold width height summary img)
          f c = false) :
    optimalFit base items width (availableHeightForItems bold width height summary img)
      = (minItemFontSize, 1) ∧
    ∀ p ∈ layout base bold al width height summary items img,
      isItemText p = true →
        margin + imageSectionHeight width height img ≤ primY p := by
  constructor
  · by_cases hgate : 0 < items.length ∧
        0 < availableHeightForItems bold width height summary img
    · rcases hdeg with hneg | hall
      · exact absurd hgate.2 (not_lt.2 hneg)
      · have hopt : optimalFit base items width
            (availableHeightForItems bold width height summary img) =
            fitFromF base items width
              (availableHeightForItems bold width height summary img) 15
              maxItemFontSize := by
          rw [optimalFit, if_pos hgate]; rfl
        obtain ⟨_, h2, h3, _, h5⟩ :=
          fitFromF_char base items width
            (availableHeightForItems bold width height summary img) 15 maxItemFontSize
            (by norm_num [maxItemFontSize])
        rcases h5 with ⟨hsome, hle⟩ | ⟨heq, _⟩
        · obtain ⟨hc1, _, hfits, _⟩ :=
            findColsAux_some base items width _ _ 3 _ hsome
          obtain ⟨hf1, _, _, _, _⟩ :=
            fitFromF_char base items width
              (availableHeightForItems bold width height summary img) 15 maxItemFontSize
              (by norm_num [maxItemFontSize])
          exact absurd (hall _ _ hf1 hle hc1 h3) (by simp [hfits])
        · rw [hopt, heq]
    · rw [optimalFit, if_neg hgate]
  · intro p hp hitem
    rw [layout_eq] at hp
    rcases List.mem_cons.1 hp with hp | hp
    · rw [hp] at hitem; simp [isItemText] at hitem
    rcases List.mem_cons.1 hp with hp | hp
    · rw [hp] at hitem; simp [isItemText] at hitem
    rcases List.mem_append.1 hp with hp | hp
    · obtain ⟨_, _, yp, _, _, hpe, hfy, _⟩ :=
        itemPrims_mem base al width _ _ _ items p hp
      rw [hpe]
      exact hfy
    · obtain ⟨x, y, w, h, hpe⟩ := imagePrims_mem width height img _ p hp
      rw [hpe] at hitem; simp [isItemText] at hitem

/-- C3 witness: a 100×20 canvas leaves a negative item budget, and the fit
result is the floor `(6, 1)`. -/
theorem layout_degenerate_fit_witness :
    optimalFit stdFM ["x"] 100 (availableHeightForItems stdFM 100 20 "H" none)
      = (minItemFontSize, 1) :=
  (layout_degenerate_fit stdFM stdFM .left 100 20 "H" ["x"] none
    (Or.inl (of_decide_eq_true (by with_unfolding_all rfl)))).1

/-! ## Height monotonicity (C5) -/

/-- The fit predicate is monotone in the vertical budget. -/
lemma fitsB_mono_avail (fm : FontMetrics) (items : List String) (width : ℚ)
    (fs c : ℕ) {a1 a2 : ℚ} (h : a1 ≤ a2)
    (hf : fitsB fm items width a1 fs c = true) :
    fitsB fm items width a2 fs c = true := by
  simp only [fitsB, Bool.and_eq_true, decide_eq_true_eq] at hf ⊢
  exact ⟨le_trans hf.1 h, hf.2⟩

/-- If no column count fits at the larger budget, none fits at the smaller. -/
lemma findCols_none_mono (fm : FontMetrics) (items : List String) (width : ℚ)
    (fs : ℕ) {a1 a2 : ℚ} (h : a1 ≤ a2)
    (hn : findCols fm items width a2 fs = none) :
    findCols fm items width a1 fs = none := by
  rw [findCols_none_iff] at hn ⊢
  intro c h1 h2
  cases hf : fitsB fm items width a1 fs c
  · rfl
  · exact absurd (fitsB_mono_avail fm items width fs c h hf) (by simp [hn c h1 h2])

/-- The chosen font size is monotone in the vertical budget. -/
lemma optimalFit_fst_mono (fm : FontMetrics) (items : List String) (width : ℚ)
    {a1 a2 : ℚ} (h : a1 ≤ a2) :
    (optimalFit fm items width a1).1 ≤ (optimalFit fm items width a2).1 := by
  by_cases hg : 0 < items.length ∧ 0 < a1
  · have hg2 : 0 < items.length ∧ 0 < a2 := ⟨hg.1, lt_of_lt_of_le hg.2 h⟩
    have e1 : optimalFit fm items width a1 =
        fitFromF fm items width a1 15 maxItemFontSize := by
      rw [optimalFit, if_pos hg]; rfl
    have e2 : optimalFit fm items width a2 =
        fitFromF fm items width a2 15 maxItemFontSize := by
      rw [optimalFit, if_pos hg2]; rfl
    rw [e1, e2]
    obtain ⟨h11, _, _, _, h15⟩ :=
      fitFromF_char fm items width a1 15 maxItemFontSize (by norm_num [maxItemFontSize])
    obtain ⟨h21, _, _, h24, _⟩ :=
      fitFromF_char fm items width a2 15 maxItemFontSize (by norm_num [maxItemFontSize])
    rcases h15 with ⟨hsome1, hle1⟩ | ⟨heq1, _⟩
    · by_contra hgt
      push_neg at hgt
      have hnone2 := h24 _ h11 hle1 hgt
      have hnone1 := findCols_none_mono fm items width _ h hnone2
      rw [hnone1] at hsome1
      exact Option.noConfusion hsome1
    · rw [heq1]
      exact h21
  · have e1 : optimalFit fm items width a1 = (minItemFontSize, 1) := by
      rw [optimalFit, if_neg hg]
    rw [e1]
    exact (optimalFit_bounds fm items width a2).1

/-- Raising the canvas height raises the image section height by at most the
height increase (the image claims at most a 3/10 fraction of it). -/
lemma imageSectionHeight_mono (width : ℚ) (img : Option RasterImage) {h1 h2 : ℚ}
    (hle : h1 ≤ h2) :
    imageSectionHeight width h2 img ≤ imageSectionHeight width h1 img + (h2 - h1) := by
  cases img with
  | none => simp only [imageSectionHeight]; linarith
  | some i =>
      simp only [imageSectionHeight, imageScale]
      have hph : (0 : ℚ) < (i.pixelHeight : ℚ) := by exact_mod_cast i.pixelHeight_pos
      have hfr : maxImageFraction = 3/10 := rfl
      set a := contentWidth width / (i.pixelWidth : ℚ) with ha
      set b1 := (h1 - margin * 2) * maxImageFraction / (i.pixelHeight : ℚ) with hb1
      set b2 := (h2 - margin * 2) * maxImageFraction / (i.pixelHeight : ℚ) with hb2
      have hb12 : b1 ≤ b2 := by
        rw [hb1, hb2]
        apply div_le_div_of_nonneg_right ?_ hph.le
        apply mul_le_mul_of_nonneg_right (by linarith)
        rw [hfr]; norm_num
      have hd : 0 ≤ b2 - b1 := by linarith
      have hmm : min a b2 ≤ min a b1 + (b2 - b1) := by
        rcases le_total a b1 with hab | hab
        · calc min a b2 ≤ a := min_le_left _ _
            _ = min a b1 := (min_eq_left hab).symm
            _ ≤ min a b1 + (b2 - b1) := by linarith
        · calc min a b2 ≤ b2 := min_le_right _ _
            _ = b1 + (b2 - b1) := by ring
            _ = min a b1 + (b2 - b1) := by rw [min_eq_right hab]
      have hsc : min (min a b2) 1 ≤ min (min a b1) 1 + (b2 - b1) := by
        calc min (min a b2) 1 ≤ min (min a b1 + (b2 - b1)) (1 + (b2 - b1)) :=
              min_le_min hmm (by linarith)
          _ = min (min a b1) 1 + (b2 - b1) := min_add_add_right _ _ _
      have hphd : (i.pixelHeight : ℚ) * (b2 - b1) ≤ h2 - h1 := by
        have : (i.pixelHeight : ℚ) * (b2 - b1) = (h2 - h1) * maxImageFraction := by
          rw [hb1, hb2]
          field_simp
          ring
        rw [this, hfr]
        linarith
      have hmul : (i.pixelHeight : ℚ) * min (min a b2) 1 ≤
          (i.pixelHeight : ℚ) * (min (min a b1) 1 + (b2 - b1)) :=
        mul_le_mul_of_nonneg_left hsc (le_of_lt hph)
      have hexp : (i.pixelHeight : ℚ) * (min (min a b1) 1 + (b2 - b1)) =
          (i.pixelHeight : ℚ) * min (min a b1) 1 + (i.pixelHeight : ℚ) * (b2 - b1) := by
        ring
      linarith [hmul, hphd, hexp.le]

/-- The item budget is monotone in the canvas height. -/
lemma availableHeightForItems_mono (bold : FontMetrics) (width : ℚ) (summary : String)
    (img : Option RasterImage) {h1 h2 : ℚ} (hle : h1 ≤ h2) :
    availableHeightForItems bold width h1 summary img ≤
      availableHeightForItems bold width h2 summary img := by
  have him := imageSectionHeight_mono width img hle
  simp only [availableHeightForItems, itemListStartY, lineYpos, headerY]
  linarith

/-- C5: with header, items, formatting and image fixed, a larger canvas height
never yields a strictly smaller chosen item font size. -/
theorem optimalFontSize_height_monotone (base bold : FontMetrics) (width : ℚ)
    (summary : String) (items : List String) (img : Option RasterImage)
    {h1 h2 : ℚ} (hle : h1 ≤ h2) :
    (optimalFit base items width (availableHeightForItems bold width h1 summary img)).1 ≤
      (optimalFit base items width (availableHeightForItems bold width h2 summary img)).1 :=
  optimalFit_fst_mono base items width
    (availableHeightForItems_mono bold width summary img hle)

/-- C5 witness: growing a 100×50 canvas to 100×100 does not shrink the chosen
item font size. -/
theorem optimalFontSize_height_monotone_witness :
    (optimalFit stdFM ["x"] 100 (availableHeightForItems stdFM 100 50 "H" none)).1 ≤
      (optimalFit stdFM ["x"] 100 (availableHeightForItems stdFM 100 100 "H" none)).1 :=
  optimalFontSize_height_monotone stdFM stdFM 100 "H" ["x"] none (by norm_num)

/-! ## Header and separator emission (C10) -/

/-- C10: for every input — empty header and empty items included — the draw
list contains exactly one bold (header) text primitive and exactly one line
primitive, emitted as the first two primitives before any item or image
primitive; the separator line spans from `x = margin` to `x = width - margin`
with thickness 0.5. -/
theorem layout_header_and_separator (base bold : FontMetrics) (al : Align)
    (width height : ℚ) (summary : String) (items : List String)
    (img : Option RasterImage) :
    (layout base bold al width height summary items img).countP
        (fun p => isBoldText p) = 1 ∧
    (layout base bold al width height summary items img).countP
        (fun p => isLine p) = 1 ∧
    ∃ rest, layout base bold al width height summary items img =
      .text summary (headerX bold al width summary) (headerY bold width height summary)
          (headerFontSize bold summary (contentWidth width)) true ::
      .line margin (lineYpos bold width height summary) (width - margin)
          (lineYpos bold width height summary) lineThickness :: rest ∧
      ∀ p ∈ rest, isBoldText p = false ∧ isLine p = false := by
  have hrest : ∀ p ∈ itemPrims base al width (itemListStartY bold width height summary)
        (availableHeightForItems bold width height summary img)
        (margin + imageSectionHeight width height img) items ++
      imagePrims width height img (layoutScale width height img),
      isBoldText p = false ∧ isLine p = false := by
    intro p hp
    rcases List.mem_append.1 hp with hp | hp
    · obtain ⟨_, _, _, _, _, hpe, _, _⟩ := itemPrims_mem base al width _ _ _ items p hp
      rw [hpe]; exact ⟨rfl, rfl⟩
    · obtain ⟨x, y, w, h, hpe⟩ := imagePrims_mem width height img _ p hp
      rw [hpe]; exact ⟨rfl, rfl⟩
  have hz1 : (itemPrims base al width (itemListStartY bold width height summary)
        (availableHeightForItems bold width height summary img)
        (margin + imageSectionHeight width height img) items ++
      imagePrims width height img (layoutScale width height img)).countP
        (fun p => isBoldText p) = 0 :=
    List.countP_eq_zero.2 fun p hp => by simp [(hrest p hp).1]
  have hz2 : (itemPrims base al width (itemListStartY bold width height summary)
        (availableHeightForItems bold width height summary img)
        (margin + imageSectionHeight width height img) items ++
      imagePrims width height img (layoutScale width height img)).countP
        (fun p => isLine p) = 0 :=
    List.countP_eq_zero.2 fun p hp => by simp [(hrest p hp).2]
  refine ⟨?_, ?_, _, layout_eq base bold al width height summary items img, hrest⟩
  · rw [layout_eq, List.countP_cons, List.countP_cons, hz1]
    simp [isBoldText, isLine]
  · rw [layout_eq, List.countP_cons, List.countP_cons, hz2]
    simp [isBoldText, isLine]

/-- C10 witness: concrete layout with exactly one bold header primitive. -/
theorem layout_header_and_separator_witness :
    (layout stdFM stdFM .left 100 100 "Hi" ["a"] none).countP
        (fun p => isBoldText p) = 1 :=
  (layout_header_and_separator stdFM stdFM .left 100 100 "Hi" ["a"] none).1

/-! ## Canvas bounds (C2) -/

/-- C2 counterexample: on a valid 1pt × 1pt canvas, the layout's primitives
leave the `[0, width] × [0, height]` box (the left margin alone puts the header
at x = 5 > 1, and the separator's right endpoint is x = −4). -/
theorem layout_not_always_in_bounds :
    (layout stdFM stdFM .left 1 1 "A" [] none).all
      (fun p => inBoundsB 1 1 p) = false := by
  with_unfolding_all rfl

/-- The left edge of each column stays within the canvas when the canvas is at
least as wide as the two margins. -/
lemma colStartX_bounds (width : ℚ) (hw : 10 ≤ width) (cols cIdx : ℕ)
    (h1 : 1 ≤ cols) (h3 : cols ≤ 3) (hci : cIdx < cols) :
    0 ≤ margin + (cIdx : ℚ) * (colWidthQ width cols + margin) ∧
    margin + (cIdx : ℚ) * (colWidthQ width cols + margin) ≤ width := by
  have hm : margin = (5 : ℚ) := rfl
  interval_cases cols <;> interval_cases cIdx <;>
    refine ⟨?_, ?_⟩ <;>
    first
      | (norm_num [colWidthQ, contentWidth, hm]; linarith)
      | norm_num [colWidthQ, contentWidth, hm]

/-- The image section height is non-negative on a roomy canvas. -/
lemma imageSectionHeight_nonneg (width height : ℚ) (img : Option RasterImage)
    (hcw : 0 ≤ contentWidth width) (hh : margin * 2 ≤ height) :
    0 ≤ imageSectionHeight width height img := by
  cases img with
  | none => simp [imageSectionHeight]
  | some i =>
      simp only [imageSectionHeight]
      have hpw : (0 : ℚ) < (i.pixelWidth : ℚ) := by exact_mod_cast i.pixelWidth_pos
      have hph : (0 : ℚ) < (i.pixelHeight : ℚ) := by exact_mod_cast i.pixelHeight_pos
      have hsc : 0 ≤ imageScale width height i := by
        rw [imageScale]
        refine le_min (le_min (div_nonneg hcw hpw.le) (div_nonneg ?_ hph.le)) (by norm_num)
        have hfr : maxImageFraction = 3/10 := rfl
        apply mul_nonneg (by linarith) (by rw [hfr]; norm_num)
      have hmul : 0 ≤ (i.pixelHeight : ℚ) * imageScale width height i :=
        mul_nonneg hph.le hsc
      have hip : imagePadding = (4 : ℚ) := rfl
      linarith

/-- The drawn image width never exceeds the content width. -/
lemma image_drawn_width_le (width height : ℚ) (i : RasterImage) :
    (i.pixelWidth : ℚ) * imageScale width height i ≤ contentWidth width := by
  have hpw : (0 : ℚ) < (i.pixelWidth : ℚ) := by exact_mod_cast i.pixelWidth_pos
  have h1 : imageScale width height i ≤ contentWidth width / (i.pixelWidth : ℚ) :=
    le_trans (min_le_left _ _) (min_le_left _ _)
  calc (i.pixelWidth : ℚ) * imageScale width height i
      ≤ (i.pixelWidth : ℚ) * (contentWidth width / (i.pixelWidth : ℚ)) :=
        mul_le_mul_of_nonneg_left h1 hpw.le
    _ = contentWidth width := by
        rw [mul_comm]
        exact div_mul_cancel₀ _ hpw.ne'

/-- C2 (amended): the layout function always returns a draw list (it is total,
no exception paths), and — for left-aligned content on a canvas at least 10pt
wide and tall enough that the separator line sits at `y ≥ 0` (height at least
11pt plus the header height), with non-negative font line heights — every
primitive coordinate lies within `[0, width] × [0, height]`.  On arbitrary
positive canvases the containment fails (see the counterexample). -/
theorem layout_inBounds_left_roomy (base bold : FontMetrics) (width height : ℚ)
    (summary : String) (items : List String) (img : Option RasterImage)
    (hw : 10 ≤ width)
    (hbase : ∀ n, 0 ≤ base.heightAt n)
    (hbold : ∀ n, 0 ≤ bold.heightAt n)
    (hh : 11 + headerTextHeight bold summary (contentWidth width) ≤ height) :
    ∀ p ∈ layout base bold .left width height summary items img,
      inBoundsB width height p = true := by
  have hm : margin = (5 : ℚ) := rfl
  have hbm : headerBottomMargin = (4 : ℚ) := rfl
  have hlt : lineTopMargin = (2 : ℚ) := rfl
  have hlb : lineBottomMargin = (4 : ℚ) := rfl
  have hip : imagePadding = (4 : ℚ) := rfl
  have hH0 : 0 ≤ headerTextHeight bold summary (contentWidth width) := hbold _
  have hcw : 0 ≤ contentWidth width := by simp only [contentWidth, hm]; linarith
  have hhei : (10 : ℚ) ≤ height := by linarith
  intro p hp
  rw [layout_eq] at hp
  rcases List.mem_cons.1 hp with hp | hp
  · rw [hp]
    simp only [inBoundsB, headerX, headerY, decide_eq_true_eq]
    refine ⟨by rw [hm]; norm_num, by rw [hm]; linarith, by linarith, by linarith⟩
  rcases List.mem_cons.1 hp with hp | hp
  · rw [hp]
    simp only [inBoundsB, lineYpos, headerY, decide_eq_true_eq]
    refine ⟨by rw [hm]; norm_num, by rw [hm]; linarith, by linarith, by linarith,
      by linarith, by linarith, by linarith, by linarith⟩
  rcases List.mem_append.1 hp with hp | hp
  · obtain ⟨cIdx, it, yp, hci, hmem, hpe, hfy, hup⟩ :=
      itemPrims_mem base .left width _ _ _ items p hp
    obtain ⟨_, hb2, hb3⟩ := optimalFit_bounds base items width
      (availableHeightForItems bold width height summary img)
    obtain ⟨hx0, hx1⟩ := colStartX_bounds width hw _ cIdx hb2 hb3 hci
    have hfy0 : 0 ≤ margin + imageSectionHeight width height img := by
      have := imageSectionHeight_nonneg width height img hcw (by rw [hm]; linarith)
      rw [hm]; linarith
    have htop : itemListStartY bold width height summary =
        height - margin - headerTextHeight bold summary (contentWidth width)
          - headerBottomMargin - lineTopMargin - lineBottomMargin := rfl
    have hupv := hup (hbase _)
    rw [htop, hm, hbm, hlt, hlb] at hupv
    have hiH : 0 ≤ base.heightAt (optimalFit base items width
        (availableHeightForItems bold width height summary img)).1 := hbase _
    rw [hpe]
    simp only [inBoundsB, itemXpos, decide_eq_true_eq]
    exact ⟨hx0, hx1, by linarith, by linarith⟩
  · cases img with
    | none => simp [imagePrims] at hp
    | some i =>
        have hsc : layoutScale width height (some i) = imageScale width height i := rfl
        rw [hsc] at hp
        simp only [imagePrims] at hp
        split_ifs at hp with hguard
        · simp only [List.mem_singleton] at hp
          have hwle := image_drawn_width_le width height i
          have hcwv : contentWidth width = width - 10 := by
            simp only [contentWidth, hm]; ring
          rw [hcwv] at hwle
          rw [hp]
          simp only [inBoundsB, decide_eq_true_eq]
          refine ⟨by linarith [hguard.1], by linarith [hguard.1], ?_, ?_⟩
          · rw [hm, hip]; norm_num
          · rw [hm, hip]; linarith
        · simp at hp

/-- C2 witness: on a 100×100 canvas with `stdFM` metrics and a left-aligned
header, the header primitive is in bounds. -/
theorem layout_inBounds_left_roomy_witness :
    inBoundsB 100 100 (.text "Hi" 5 71 24 true) = true :=
  layout_inBounds_left_roomy stdFM stdFM 100 100 "Hi" ["a"] none
    (by norm_num) (fun n => Nat.cast_nonneg n) (fun n => Nat.cast_nonneg n)
    (of_decide_eq_true (by with_unfolding_all rfl))
    (.text "Hi" 5 71 24 true) (of_decide_eq_true (by with_unfolding_all rfl))

end LabelVision
